import Mathlib

/-!
The ehttp thread pool (`src/threadpool.cpp`).

A shallow embedding of `ThreadPool` and of the operations of `threadpool.cpp`.

* The pool object is the record `ThreadPool`; every member function becomes a
  function from the pool before the call to the return value and the pool
  after it.
* Everything a member function does between `_task_mutex.lock()` and
  `_task_mutex.unlock()` is one atomic step of the model, so a concurrent run
  of submitters and workers is a sequence of such steps on the shared record.
* An `int` is an `Int`; the conversion of a `size_t` to `int` (the `(int)`
  cast in `add_task`, the return of `destroy_threadpool`) is `to_int`, which
  keeps the low 32 bits as a signed number.
* `threadpool.h` is not among the sources. The two lifecycle constants it
  declares, `STARTED` and `STOPPED`, are parameters of the operations that
  read them; the constructor's `-1` is the state of a pool never started.
* Pointers (tasks' function and argument, callbacks, thread ids) are opaque
  numbers; running a task or a callback does not touch the pool.
* A worker runs the task it took after the unlock. `Running` keeps the
  workers next to the pool, so that taking a task and running it are two
  steps with other threads' steps in between.
-/

namespace Ehttp

/-- A `Task`: the function pointer and the argument given to the constructor. -/
structure Task where
  m_fn_ptr : Nat
  m_arg : Nat
deriving DecidableEq, Repr

/-- The data members of `ThreadPool`. A callback is `none` when it is `NULL`;
`_tasks` is the deque, head first; `_threads` is the vector of thread ids. -/
structure ThreadPool where
  m_scb : Option Nat
  m_exit_cb : Option Nat
  _task_size_limit : Int
  _pool_size : Int
  _pool_state : Int
  _threads : List Nat
  _tasks : List Task
deriving DecidableEq, Repr

/-- The conversion of a `size_t` value to `int`: the low 32 bits, read as a
signed number in two's complement. -/
def to_int (n : Nat) : Int :=
  if n % 4294967296 < 2147483648 then ((n % 4294967296 : Nat) : Int)
  else ((n % 4294967296 : Nat) : Int) - 4294967296

/-- The constructor `ThreadPool::ThreadPool()`. -/
def ThreadPool.new : ThreadPool :=
  { m_scb := none
    m_exit_cb := none
    _task_size_limit := -1
    _pool_size := 0
    _pool_state := -1
    _threads := []
    _tasks := [] }

/-- The member `ThreadPool::set_thread_start_cb`: returns nothing. -/
def set_thread_start_cb (p : ThreadPool) (f : Option Nat) : ThreadPool :=
  { p with m_scb := f }

/-- The member `ThreadPool::set_thread_exit_cb`: returns nothing. -/
def set_thread_exit_cb (p : ThreadPool) (f : Option Nat) : ThreadPool :=
  { p with m_exit_cb := f }

/-- The member `ThreadPool::set_task_size_limit`: returns nothing. -/
def set_task_size_limit (p : ThreadPool) (size : Int) : ThreadPool :=
  { p with _task_size_limit := size }

/-- The member `ThreadPool::set_pool_size`: returns nothing. -/
def set_pool_size (p : ThreadPool) (pool_size : Int) : ThreadPool :=
  { p with _pool_size := pool_size }

/-- The `for` loop of `start_threadpool`, `n` iterations left, at index `i`.
`create i` is what the `i`-th `pthread_create` gives: its return value and the
thread id it stores. A non-zero return value leaves the loop with `-1`; the
ids created so far stay in `_threads`. -/
def start_loop (create : Nat → Int × Nat) (i : Nat) : Nat → List Nat → Int × List Nat
  | 0, threads => (0, threads)
  | n + 1, threads =>
    if (create i).1 ≠ 0 then (-1, threads)
    else start_loop create (i + 1) n (threads ++ [(create i).2])

/-- The member `ThreadPool::start_threadpool`: the return value and the pool
after the call. -/
def start_threadpool (STARTED : Int) (create : Nat → Int × Nat) (p : ThreadPool) :
    Int × ThreadPool :=
  if p._pool_size = 0 then (-1, p)
  else if p._pool_state = STARTED then (0, p)
  else
    let r := start_loop create 0 p._pool_size.toNat p._threads
    (r.1, { p with _pool_state := STARTED, _threads := r.2 })

/-- The member `ThreadPool::start`: forwards to `start_threadpool`. -/
def start (STARTED : Int) (create : Nat → Int × Nat) (p : ThreadPool) : Int × ThreadPool :=
  start_threadpool STARTED create p

/-- The ids `destroy_threadpool` hands to `pthread_join`: `_threads[i]` for
`0 ≤ i < _pool_size`. An index past the end of the vector reads `none`. -/
def joined (p : ThreadPool) : List (Option Nat) :=
  (List.range p._pool_size.toNat).map (fun i => p._threads[i]?)

/-- The member `ThreadPool::destroy_threadpool`. The second component is the
pool after the critical section, which writes the state. The first is the
return value, `_tasks.size()` converted to `int`, when the call returns one:
the join loop reads `_threads[i]` for every `i < _pool_size`, and a read past
the end of the vector is undefined behaviour, after which there is no return
value (`none`). The threads joined are `joined p`; their last passes through
`execute_thread`, between the write of the state and the read of the size,
are worker passes on a `STOPPED` pool. -/
def destroy_threadpool (STOPPED : Int) (p : ThreadPool) : Option Int × ThreadPool :=
  (if (joined p).all Option.isSome then some (to_int p._tasks.length) else none,
    { p with _pool_state := STOPPED })

/-- The destructor `ThreadPool::~ThreadPool()`: it calls `destroy_threadpool`
only on a pool whose state is `STARTED`. -/
def ThreadPool.destructor (STARTED STOPPED : Int) (p : ThreadPool) : ThreadPool :=
  if p._pool_state = STARTED then (destroy_threadpool STOPPED p).2 else p

/-- The member `ThreadPool::add_task`: the return value and the pool after
the call. -/
def add_task (p : ThreadPool) (task : Task) : Int × ThreadPool :=
  if p._task_size_limit > 0 ∧ to_int p._tasks.length > p._task_size_limit then (-1, p)
  else (0, { p with _tasks := p._tasks ++ [task] })

/-- What one pass of a worker through the critical section of
`execute_thread` ends in. -/
inductive WorkerStep where
  /-- The inner `while` holds: the worker waits on the condition variable. -/
  | wait
  /-- The state is `STOPPED`: the exit callback (if any) runs and the thread exits. -/
  | exit (cb : Option Nat)
  /-- The worker took `task` from the front; it runs it after the unlock. -/
  | run (task : Task)
deriving DecidableEq, Repr

/-- One pass of `execute_thread` from `_task_mutex.lock()` (or from the wake-up
inside `wait`, which holds the mutex again) to the next wait or unlock. The
`[]` case of the `match` is never reached: there the `while` condition holds. -/
def execute_thread_step (STOPPED : Int) (p : ThreadPool) : WorkerStep × ThreadPool :=
  if p._pool_state ≠ STOPPED ∧ p._tasks.isEmpty then (.wait, p)
  else if p._pool_state = STOPPED then (.exit p.m_exit_cb, p)
  else
    match p._tasks with
    | [] => (.wait, p)
    | task :: rest => (.run task, { p with _tasks := rest })

/-- How a run of the worker loop ends. -/
inductive Outcome where
  | blocked
  | exited
  | out_of_fuel
deriving DecidableEq, Repr

/-- The loop of `execute_thread` run by one worker with nothing else going on,
until it waits, exits, or has made `fuel` passes: the tasks it ran, in the
order it ran them, how it ended, and the pool then. -/
def execute_thread (STOPPED : Int) : Nat → ThreadPool → List Task × Outcome × ThreadPool
  | 0, p => ([], .out_of_fuel, p)
  | fuel + 1, p =>
    match execute_thread_step STOPPED p with
    | (.wait, q) => ([], .blocked, q)
    | (.exit _, q) => ([], .exited, q)
    | (.run task, q) =>
      let r := execute_thread STOPPED fuel q
      (task :: r.1, r.2.1, r.2.2)

/-- Successive calls of `add_task`, one for each task of the list in order:
the return values in call order and the pool after the last call. -/
def add_tasks : ThreadPool → List Task → List Int × ThreadPool
  | p, [] => ([], p)
  | p, task :: rest =>
    let r := add_task p task
    let s := add_tasks r.2 rest
    (r.1 :: s.1, s.2)

/-- One atomic step of a running pool: a call of `add_task` by some submitter,
or a pass of some worker through the critical section of `execute_thread`. -/
inductive Event where
  | submit (task : Task)
  | worker
deriving DecidableEq, Repr

/-- A sequence of atomic steps on the shared pool: the tasks the workers
took from the queue, in the order they took them, and the pool at the end. -/
def run_events (STOPPED : Int) : ThreadPool → List Event → List Task × ThreadPool
  | p, [] => ([], p)
  | p, .submit task :: evs => run_events STOPPED (add_task p task).2 evs
  | p, .worker :: evs =>
    match execute_thread_step STOPPED p with
    | (.run task, q) =>
      let r := run_events STOPPED q evs
      (task :: r.1, r.2)
    | (_, q) => run_events STOPPED q evs

/-- Where a worker thread stands in `execute_thread`. -/
inductive Worker where
  /-- At the top of the loop, or waiting on the condition variable. -/
  | looping
  /-- Past the unlock that follows `pop_front`, with `task` not yet run. -/
  | holding (task : Task)
  /-- After `pthread_exit`. -/
  | exited
deriving DecidableEq, Repr

/-- A running program: the shared pool, the worker threads, and the tasks run
so far, oldest first, each with the `_pool_state` at the moment its `run()`
was called. -/
structure Running where
  pool : ThreadPool
  workers : List Worker
  ran : List (Task × Int)
deriving DecidableEq, Repr

/-- One step of one thread of a running program. -/
inductive Action where
  /-- Some thread calls `add_task`. -/
  | submit (task : Task)
  /-- Worker `i` goes through the critical section of `execute_thread`. -/
  | pass (i : Nat)
  /-- Worker `i`, holding a task, runs it (`task->run(); delete task;`). -/
  | run (i : Nat)
  /-- The main thread goes through the critical section of `destroy_threadpool`. -/
  | stop
deriving DecidableEq, Repr

/-- The program after one step. A step of a worker that is not where the
step starts (or of no worker) changes nothing. -/
def Running.step (STOPPED : Int) (s : Running) : Action → Running
  | .submit task => { s with pool := (add_task s.pool task).2 }
  | .pass i =>
    match s.workers[i]? with
    | some .looping =>
      match execute_thread_step STOPPED s.pool with
      | (.wait, q) => { s with pool := q }
      | (.exit _, q) => { s with pool := q, workers := s.workers.set i .exited }
      | (.run task, q) => { s with pool := q, workers := s.workers.set i (.holding task) }
    | _ => s
  | .run i =>
    match s.workers[i]? with
    | some (.holding task) =>
      { s with workers := s.workers.set i .looping,
               ran := s.ran ++ [(task, s.pool._pool_state)] }
    | _ => s
  | .stop => { s with pool := (destroy_threadpool STOPPED s.pool).2 }

/-- The program after a sequence of steps, first step first. -/
def run_actions (STOPPED : Int) (s : Running) (acts : List Action) : Running :=
  acts.foldl (Running.step STOPPED) s

/-- A call of a public member function, with its arguments (for the two
start functions: what the calls of `pthread_create` give). -/
inductive Op where
  | set_thread_start_cb (f : Option Nat)
  | set_thread_exit_cb (f : Option Nat)
  | set_task_size_limit (size : Int)
  | set_pool_size (pool_size : Int)
  | start (create : Nat → Int × Nat)
  | start_threadpool (create : Nat → Int × Nat)
  | add_task (task : Task)
  | destroy_threadpool

/-- The pool after a call. -/
def Op.apply (STARTED STOPPED : Int) (p : ThreadPool) : Op → ThreadPool
  | .set_thread_start_cb f => Ehttp.set_thread_start_cb p f
  | .set_thread_exit_cb f => Ehttp.set_thread_exit_cb p f
  | .set_task_size_limit size => Ehttp.set_task_size_limit p size
  | .set_pool_size pool_size => Ehttp.set_pool_size p pool_size
  | .start create => (Ehttp.start STARTED create p).2
  | .start_threadpool create => (Ehttp.start_threadpool STARTED create p).2
  | .add_task task => (Ehttp.add_task p task).2
  | .destroy_threadpool => (Ehttp.destroy_threadpool STOPPED p).2

/-- Whether the call is one of the two start functions. -/
def Op.is_start : Op → Bool
  | .start _ => true
  | .start_threadpool _ => true
  | _ => false

/-- The pool after a sequence of calls, first call first. -/
def run_ops (STARTED STOPPED : Int) (p : ThreadPool) (ops : List Op) : ThreadPool :=
  ops.foldl (Op.apply STARTED STOPPED) p

/-- The place of a state in the order `NOT_STARTED`, `STARTED`, `STOPPED`. -/
def rank (STARTED STOPPED : Int) (state : Int) : Nat :=
  if state = STOPPED then 2 else if state = STARTED then 1 else 0

/-- A `pthread_create` that always succeeds and numbers the threads from 100. -/
def create_ok (i : Nat) : Int × Nat := (0, 100 + i)

/-! Section: add_task. -/

theorem to_int_small (n : Nat) (h : n < 2147483648) : to_int n = (n : Int) := by
  unfold to_int
  have hm : n % 4294967296 = n := Nat.mod_eq_of_lt (by omega)
  rw [hm, if_pos h]

theorem to_int_le_max (n : Nat) : to_int n ≤ 2147483647 := by
  unfold to_int
  split <;> omega

theorem to_int_le (n : Nat) : to_int n ≤ (n : Int) := by
  unfold to_int
  split <;> omega

theorem add_task_reject (p : ThreadPool) (task : Task)
    (h : p._task_size_limit > 0 ∧ to_int p._tasks.length > p._task_size_limit) :
    add_task p task = (-1, p) := by
  simp [add_task, h]

theorem add_task_accept (p : ThreadPool) (task : Task)
    (h : ¬ (p._task_size_limit > 0 ∧ to_int p._tasks.length > p._task_size_limit)) :
    add_task p task = (0, { p with _tasks := p._tasks ++ [task] }) := by
  simp only [add_task, if_neg h]

theorem add_task_limit (p : ThreadPool) (task : Task) :
    (add_task p task).2._task_size_limit = p._task_size_limit := by
  unfold add_task; split <;> rfl

theorem add_task_state (p : ThreadPool) (task : Task) :
    (add_task p task).2._pool_state = p._pool_state := by
  unfold add_task; split <;> rfl

theorem add_tasks_accepted (ts : List Task) :
    ∀ p : ThreadPool, (∀ r ∈ (add_tasks p ts).1, r = 0) →
      (add_tasks p ts).2 = { p with _tasks := p._tasks ++ ts } := by
  induction ts with
  | nil => intro p _; simp [add_tasks]
  | cons t rest ih =>
    intro p h
    simp only [add_tasks, List.mem_cons, forall_eq_or_imp] at h
    obtain ⟨h0, hrest⟩ := h
    have hacc : ¬ (p._task_size_limit > 0 ∧ to_int p._tasks.length > p._task_size_limit) := by
      intro hc
      rw [add_task_reject p t hc] at h0
      simp at h0
    simp only [add_tasks]
    rw [ih _ hrest, add_task_accept p t hacc]
    simp

theorem add_tasks_unbounded (ts : List Task) :
    ∀ p : ThreadPool, p._task_size_limit ≤ 0 → ∀ r ∈ (add_tasks p ts).1, r = 0 := by
  induction ts with
  | nil => intro p _ r hr; simp [add_tasks] at hr
  | cons t rest ih =>
    intro p hp r hr
    have hacc : ¬ (p._task_size_limit > 0 ∧ to_int p._tasks.length > p._task_size_limit) := by
      intro hc; omega
    simp only [add_tasks, List.mem_cons] at hr
    rcases hr with hr | hr
    · rw [hr, add_task_accept p t hacc]
    · exact ih _ (by rw [add_task_limit]; exact hp) r hr

/-- C1, the claim fails: a fresh pool (no limit) is given `2^31 + 2` tasks and
then the limit `1`. The limit is positive and the queue is longer than the
limit, yet the next `add_task` returns `0` and appends: the size converted to
`int` is negative. -/
theorem add_task_wrapped_size :
    (set_task_size_limit
        (add_tasks ThreadPool.new (List.replicate 2147483650 ⟨0, 0⟩)).2 1)._task_size_limit > 0 ∧
    ((set_task_size_limit
        (add_tasks ThreadPool.new (List.replicate 2147483650 ⟨0, 0⟩)).2 1)._tasks.length : Int)
      > (set_task_size_limit
          (add_tasks ThreadPool.new (List.replicate 2147483650 ⟨0, 0⟩)).2 1)._task_size_limit ∧
    (add_task
        (set_task_size_limit
          (add_tasks ThreadPool.new (List.replicate 2147483650 ⟨0, 0⟩)).2 1) ⟨1, 0⟩).1 = 0 := by
  have hnew : ThreadPool.new._task_size_limit ≤ 0 := by decide
  have hq := add_tasks_accepted (List.replicate 2147483650 ⟨0, 0⟩) ThreadPool.new
    (add_tasks_unbounded _ ThreadPool.new hnew)
  have hlen : (set_task_size_limit
      (add_tasks ThreadPool.new (List.replicate 2147483650 ⟨0, 0⟩)).2 1)._tasks.length
      = 2147483650 := by
    rw [hq]
    show (ThreadPool.new._tasks ++ List.replicate 2147483650 (⟨0, 0⟩ : Task)).length = 2147483650
    rw [List.length_append, List.length_replicate]
    rfl
  have hwrap : to_int 2147483650 = -2147483646 := by decide
  refine ⟨by decide, ?_, ?_⟩
  · rw [hlen]; decide
  · rw [add_task_accept]
    rw [hlen, hwrap]
    intro hc
    have := hc.2
    change (-2147483646 : Int) > 1 at this
    omega

/-- C1, amended. For every pool and task, `add_task` returns `-1` exactly
when the limit is positive and the queue size converted to `int` is strictly
greater than the limit, which for a queue of fewer than `2^31` tasks is:
exactly when the limit is positive and the queue is strictly longer than the
limit. When it returns `-1` the pool is unchanged; in every other case (every
limit `≤ 0` among them) it returns `0` and the pool differs only in the queue,
which is the old queue with the task appended. Successive submissions that are
all accepted turn the queue `q` into `q` followed by the tasks in submission
order, and with a limit `≤ 0` every submission is accepted. -/
theorem add_task_contract (p : ThreadPool) (task : Task) (ts : List Task) :
    ((add_task p task).1 = -1 ↔
        (p._task_size_limit > 0 ∧ to_int p._tasks.length > p._task_size_limit)) ∧
    (p._tasks.length < 2147483648 →
      ((add_task p task).1 = -1 ↔
        (p._task_size_limit > 0 ∧ (p._tasks.length : Int) > p._task_size_limit))) ∧
    ((add_task p task).1 = -1 → (add_task p task).2 = p) ∧
    ((add_task p task).1 ≠ -1 →
        add_task p task = (0, { p with _tasks := p._tasks ++ [task] })) ∧
    (p._task_size_limit ≤ 0 →
        add_task p task = (0, { p with _tasks := p._tasks ++ [task] })) ∧
    ((∀ r ∈ (add_tasks p ts).1, r = 0) →
        (add_tasks p ts).2 = { p with _tasks := p._tasks ++ ts }) ∧
    (p._task_size_limit ≤ 0 →
        (∀ r ∈ (add_tasks p ts).1, r = 0) ∧
        (add_tasks p ts).2 = { p with _tasks := p._tasks ++ ts }) := by
  have hiff : (add_task p task).1 = -1 ↔
      (p._task_size_limit > 0 ∧ to_int p._tasks.length > p._task_size_limit) := by
    by_cases hc : p._task_size_limit > 0 ∧ to_int p._tasks.length > p._task_size_limit
    · simp [add_task_reject p task hc, hc]
    · rw [add_task_accept p task hc]; simp [hc]
  refine ⟨hiff, ?_, ?_, ?_, ?_, add_tasks_accepted ts p, ?_⟩
  · intro hlen
    rw [hiff, to_int_small _ hlen]
  · intro h
    rw [add_task_reject p task (hiff.mp h)]
  · intro h
    exact add_task_accept p task (fun hc => h (hiff.mpr hc))
  · intro h
    exact add_task_accept p task (fun hc => by omega)
  · intro h
    exact ⟨add_tasks_unbounded ts p h, add_tasks_accepted ts p (add_tasks_unbounded ts p h)⟩

/-- C1, amended, on a pool with limit `1` whose queue holds two tasks: the
third submission is accepted, the fourth is not. -/
theorem add_task_contract_witness :
    ((add_tasks (set_task_size_limit ThreadPool.new 1) [⟨1, 0⟩, ⟨2, 0⟩]).2._tasks.length
        < 2147483648) ∧
    (add_task (add_tasks (set_task_size_limit ThreadPool.new 1) [⟨1, 0⟩, ⟨2, 0⟩]).2 ⟨3, 0⟩).1
      = -1 :=
  ⟨by decide,
   ((add_task_contract (add_tasks (set_task_size_limit ThreadPool.new 1) [⟨1, 0⟩, ⟨2, 0⟩]).2
      ⟨3, 0⟩ []).2.1 (by decide)).mpr (by decide)⟩

/-- C2. With limit `1` the queue of a fresh pool holds two tasks after two
calls of `add_task`, both of which return `0`: the queue is longer than the
limit. -/
theorem queue_exceeds_limit :
    (add_tasks (set_task_size_limit ThreadPool.new 1) [⟨1, 0⟩, ⟨2, 0⟩]).1 = [0, 0] ∧
    (add_tasks (set_task_size_limit ThreadPool.new 1) [⟨1, 0⟩, ⟨2, 0⟩]).2._tasks
      = [⟨1, 0⟩, ⟨2, 0⟩] ∧
    (set_task_size_limit ThreadPool.new 1)._task_size_limit <
      ((add_tasks (set_task_size_limit ThreadPool.new 1) [⟨1, 0⟩, ⟨2, 0⟩]).2._tasks.length : Int) := by
  decide

/-! Section: The worker loop. -/

theorem step_stopped (STOPPED : Int) (p : ThreadPool) (h : p._pool_state = STOPPED) :
    execute_thread_step STOPPED p = (.exit p.m_exit_cb, p) := by
  simp [execute_thread_step, h]

theorem step_wait (STOPPED : Int) (p : ThreadPool) (h : p._pool_state ≠ STOPPED)
    (hq : p._tasks = []) : execute_thread_step STOPPED p = (.wait, p) := by
  simp [execute_thread_step, h, hq]

theorem step_run (STOPPED : Int) (p : ThreadPool) (task : Task) (rest : List Task)
    (h : p._pool_state ≠ STOPPED) (hq : p._tasks = task :: rest) :
    execute_thread_step STOPPED p = (.run task, { p with _tasks := rest }) := by
  simp [execute_thread_step, h, hq]

theorem step_limit (STOPPED : Int) (p : ThreadPool) :
    (execute_thread_step STOPPED p).2._task_size_limit = p._task_size_limit := by
  unfold execute_thread_step
  split
  · rfl
  · split
    · rfl
    · split <;> rfl

theorem step_length (STOPPED : Int) (p : ThreadPool) :
    (execute_thread_step STOPPED p).2._tasks.length ≤ p._tasks.length := by
  unfold execute_thread_step
  split
  · exact le_rfl
  · split
    · exact le_rfl
    · split
      · exact le_rfl
      · rename_i heq; rw [heq]; simp

theorem same_queue (p : ThreadPool) (ts : List Task) (h : p._tasks = ts) :
    { p with _tasks := ts } = p := by
  cases p; simp at h; simp [h]

theorem drain_loop (STOPPED : Int) (ts : List Task) :
    ∀ (p : ThreadPool) (fuel : Nat), p._pool_state ≠ STOPPED → p._tasks = ts →
      ts.length < fuel →
      execute_thread STOPPED fuel p = (ts, .blocked, { p with _tasks := [] }) := by
  induction ts with
  | nil =>
    intro p fuel hs hq hf
    obtain ⟨k, rfl⟩ : ∃ k, fuel = k + 1 := ⟨fuel - 1, by simp at hf; omega⟩
    simp only [execute_thread, step_wait STOPPED p hs hq]
    rw [same_queue p [] hq]
  | cons t rest ih =>
    intro p fuel hs hq hf
    obtain ⟨k, rfl⟩ : ∃ k, fuel = k + 1 := ⟨fuel - 1, by simp at hf; omega⟩
    simp only [execute_thread, step_run STOPPED p t rest hs hq]
    rw [ih { p with _tasks := rest } k hs rfl (by simp at hf; omega)]

theorem drain_events (STOPPED : Int) (ts : List Task) :
    ∀ (p : ThreadPool), p._pool_state ≠ STOPPED → p._tasks = ts →
      run_events STOPPED p (List.replicate ts.length .worker)
        = (ts, { p with _tasks := [] }) := by
  induction ts with
  | nil =>
    intro p _ hq
    simp only [List.length_nil, List.replicate_zero, run_events]
    rw [same_queue p [] hq]
  | cons t rest ih =>
    intro p hs hq
    simp only [List.length_cons, List.replicate_succ, run_events,
      step_run STOPPED p t rest hs hq]
    rw [ih { p with _tasks := rest } hs rfl]

/-- C3. FIFO. Tasks `ts` submitted in order, all accepted, to a `STARTED` pool
with an empty queue: the worker loop, given enough passes, takes and runs
exactly `ts` in that order and then waits with the queue empty, and so do
`ts.length` successive worker passes of whichever workers. Every worker pass
on a pool that is not `STOPPED` and whose queue is `task :: rest` takes `task`
and leaves `rest`. -/
theorem worker_fifo (STARTED STOPPED : Int) (hcodes : STARTED ≠ STOPPED) (p : ThreadPool)
    (ts : List Task) (hstate : p._pool_state = STARTED) (hq : p._tasks = [])
    (hacc : ∀ r ∈ (add_tasks p ts).1, r = 0) :
    (∀ fuel, ts.length < fuel →
      execute_thread STOPPED fuel (add_tasks p ts).2 = (ts, .blocked, p)) ∧
    run_events STOPPED (add_tasks p ts).2 (List.replicate ts.length .worker) = (ts, p) ∧
    (∀ (q : ThreadPool) (task : Task) (rest : List Task),
      q._pool_state ≠ STOPPED → q._tasks = task :: rest →
      execute_thread_step STOPPED q = (.run task, { q with _tasks := rest })) := by
  have hs : p._pool_state ≠ STOPPED := by rw [hstate]; exact hcodes
  have hp : (add_tasks p ts).2 = { p with _tasks := ts } := by
    rw [add_tasks_accepted ts p hacc, hq]; rfl
  have hempty : ({ p with _tasks := [] } : ThreadPool) = p := same_queue p [] hq
  refine ⟨?_, ?_, ?_⟩
  · intro fuel hf
    rw [hp, drain_loop STOPPED ts { p with _tasks := ts } fuel hs rfl hf]
    exact Prod.ext rfl (Prod.ext rfl hempty)
  · rw [hp, drain_events STOPPED ts { p with _tasks := ts } hs rfl]
    exact Prod.ext rfl hempty
  · intro q task rest hqs hqq
    exact step_run STOPPED q task rest hqs hqq

/-- C3 at `STARTED = 0`, `STOPPED = 1`: three tasks submitted to a started
pool of one worker with no limit. -/
theorem worker_fifo_witness :
    (∀ fuel, [(⟨1, 0⟩ : Task), ⟨2, 0⟩, ⟨3, 0⟩].length < fuel →
      execute_thread 1 fuel
        (add_tasks (start_threadpool 0 create_ok (set_pool_size ThreadPool.new 1)).2
          [⟨1, 0⟩, ⟨2, 0⟩, ⟨3, 0⟩]).2
        = ([⟨1, 0⟩, ⟨2, 0⟩, ⟨3, 0⟩], .blocked,
            (start_threadpool 0 create_ok (set_pool_size ThreadPool.new 1)).2)) ∧
    run_events 1
        (add_tasks (start_threadpool 0 create_ok (set_pool_size ThreadPool.new 1)).2
          [⟨1, 0⟩, ⟨2, 0⟩, ⟨3, 0⟩]).2
        (List.replicate [(⟨1, 0⟩ : Task), ⟨2, 0⟩, ⟨3, 0⟩].length .worker)
      = ([⟨1, 0⟩, ⟨2, 0⟩, ⟨3, 0⟩],
          (start_threadpool 0 create_ok (set_pool_size ThreadPool.new 1)).2) ∧
    (∀ (q : ThreadPool) (task : Task) (rest : List Task),
      q._pool_state ≠ 1 → q._tasks = task :: rest →
      execute_thread_step 1 q = (.run task, { q with _tasks := rest })) :=
  worker_fifo 0 1 (by decide)
    (start_threadpool 0 create_ok (set_pool_size ThreadPool.new 1)).2
    [⟨1, 0⟩, ⟨2, 0⟩, ⟨3, 0⟩] (by decide) (by decide) (by decide)

/-! Section: The queue bound. -/

theorem run_events_worker (STOPPED : Int) (p : ThreadPool) (evs : List Event) :
    (run_events STOPPED p (.worker :: evs)).2
      = (run_events STOPPED (execute_thread_step STOPPED p).2 evs).2 := by
  simp only [run_events]
  split
  · rename_i heq; simp [heq]
  · rename_i heq; simp [heq]

theorem add_task_bound (p : ThreadPool) (task : Task) (h : 0 < p._task_size_limit)
    (hmax : p._task_size_limit < 2147483647)
    (hb : (p._tasks.length : Int) ≤ p._task_size_limit + 1) :
    ((add_task p task).2._tasks.length : Int) ≤ p._task_size_limit + 1 := by
  by_cases hc : p._task_size_limit > 0 ∧ to_int p._tasks.length > p._task_size_limit
  · rw [add_task_reject p task hc]; exact hb
  · rw [add_task_accept p task hc]
    have hsmall : to_int p._tasks.length = (p._tasks.length : Int) :=
      to_int_small _ (by omega)
    have : ¬ (p._tasks.length : Int) > p._task_size_limit := by
      intro hgt; exact hc ⟨h, by rw [hsmall]; exact hgt⟩
    simp only [List.length_append, List.length_singleton, Nat.cast_add, Nat.cast_one]
    omega

theorem events_bound (STOPPED : Int) (evs : List Event) :
    ∀ p : ThreadPool, 0 < p._task_size_limit → p._task_size_limit < 2147483647 →
      (p._tasks.length : Int) ≤ p._task_size_limit + 1 →
      ((run_events STOPPED p evs).2._tasks.length : Int) ≤ p._task_size_limit + 1 := by
  induction evs with
  | nil => intro p _ _ hb; simpa [run_events] using hb
  | cons ev rest ih =>
    intro p h hmax hb
    cases ev with
    | submit task =>
      simp only [run_events]
      have := ih (add_task p task).2 (by rw [add_task_limit]; exact h)
        (by rw [add_task_limit]; exact hmax)
        (by rw [add_task_limit]; exact add_task_bound p task h hmax hb)
      rw [add_task_limit] at this
      exact this
    | worker =>
      rw [run_events_worker]
      have hlen := step_length STOPPED p
      have := ih (execute_thread_step STOPPED p).2 (by rw [step_limit]; exact h)
        (by rw [step_limit]; exact hmax) (by rw [step_limit]; omega)
      rw [step_limit] at this
      exact this

theorem events_fill (STOPPED : Int) (task : Task) (k : Nat) :
    ∀ p : ThreadPool, 0 < p._task_size_limit → p._task_size_limit < 2147483647 →
      (p._tasks.length : Int) + k ≤ p._task_size_limit + 1 →
      (run_events STOPPED p (List.replicate k (.submit task))).2._tasks.length
        = p._tasks.length + k := by
  induction k with
  | zero => intro p _ _ _; simp [run_events]
  | succ k ih =>
    intro p h hmax hb
    have hsmall : to_int p._tasks.length = (p._tasks.length : Int) :=
      to_int_small _ (by push_cast at hb; omega)
    have hc : ¬ (p._task_size_limit > 0 ∧ to_int p._tasks.length > p._task_size_limit) := by
      intro hc; rw [hsmall] at hc; push_cast at hb; omega
    simp only [List.replicate_succ, run_events]
    rw [ih (add_task p task).2 (by rw [add_task_limit]; exact h)
      (by rw [add_task_limit]; exact hmax)
      (by rw [add_task_limit, add_task_accept p task hc]; simp; push_cast at hb; omega)]
    rw [add_task_accept p task hc]
    simp; omega

theorem events_int_max (STOPPED : Int) (task : Task) (k : Nat) :
    ∀ p : ThreadPool, p._task_size_limit = 2147483647 →
      (run_events STOPPED p (List.replicate k (.submit task))).2._tasks.length
        = p._tasks.length + k := by
  induction k with
  | zero => intro p _; simp [run_events]
  | succ k ih =>
    intro p h
    have hc : ¬ (p._task_size_limit > 0 ∧ to_int p._tasks.length > p._task_size_limit) := by
      intro hc
      have := to_int_le_max p._tasks.length
      omega
    simp only [List.replicate_succ, run_events]
    rw [ih (add_task p task).2 (by rw [add_task_limit]; exact h)]
    rw [add_task_accept p task hc]
    simp; omega

/-- C10, the claim fails: with the limit `L = 2147483647` on a fresh pool,
`L + 2` calls of `add_task` in a row are all accepted (no size converted to
`int` is greater than `L`), and the queue is longer than `L + 1`, whatever the
value of `STOPPED`. -/
theorem queue_passes_bound :
    ¬ ∃ STOPPED : Int,
      ((run_events STOPPED (set_task_size_limit ThreadPool.new 2147483647)
          (List.replicate 2147483649 (.submit ⟨0, 0⟩))).2._tasks.length : Int)
        ≤ 2147483647 + 1 := by
  rintro ⟨t, h⟩
  rw [events_int_max t ⟨0, 0⟩ 2147483649 (set_task_size_limit ThreadPool.new 2147483647) rfl] at h
  have h0 : (set_task_size_limit ThreadPool.new 2147483647)._tasks.length = 0 := rfl
  rw [h0] at h
  omega

/-- C10, amended. With a fixed limit `0 < L < 2147483647` and the queue empty
at the start, after every sequence of `add_task` calls and worker passes the
queue holds at most `L + 1` tasks; and after `L + 1` calls of `add_task` with
no worker pass in between it holds exactly `L + 1`. -/
theorem queue_bound (STOPPED : Int) (p : ThreadPool) (L : Int) (hL : 0 < L)
    (hmax : L < 2147483647) (hlimit : p._task_size_limit = L) (hq : p._tasks = []) :
    (∀ evs : List Event, ((run_events STOPPED p evs).2._tasks.length : Int) ≤ L + 1) ∧
    (∀ task : Task,
      ((run_events STOPPED p (List.replicate (L.toNat + 1) (.submit task))).2._tasks.length : Int)
        = L + 1) := by
  constructor
  · intro evs
    have := events_bound STOPPED evs p (by rw [hlimit]; exact hL) (by rw [hlimit]; exact hmax)
      (by rw [hlimit, hq]; simp; omega)
    rw [hlimit] at this
    exact this
  · intro task
    rw [events_fill STOPPED task (L.toNat + 1) p (by rw [hlimit]; exact hL)
      (by rw [hlimit]; exact hmax) (by rw [hlimit, hq]; simp; omega)]
    rw [hq]; simp; omega

/-- C10, amended, at limit `2` on a pool otherwise fresh, with `STOPPED = 1`. -/
theorem queue_bound_witness :
    (∀ evs : List Event,
      ((run_events 1 (set_task_size_limit ThreadPool.new 2) evs).2._tasks.length : Int)
        ≤ 2 + 1) ∧
    (∀ task : Task,
      ((run_events 1 (set_task_size_limit ThreadPool.new 2)
          (List.replicate ((2 : Int).toNat + 1) (.submit task))).2._tasks.length : Int)
        = 2 + 1) :=
  queue_bound 1 (set_task_size_limit ThreadPool.new 2) 2 (by decide) (by decide) rfl rfl

/-! Section: A stopped pool. -/

theorem events_stopped (STOPPED : Int) (evs : List Event) :
    ∀ p : ThreadPool, p._pool_state = STOPPED →
      (run_events STOPPED p evs).1 = [] ∧
      (run_events STOPPED p evs).2._pool_state = STOPPED ∧
      p._tasks <+: (run_events STOPPED p evs).2._tasks := by
  induction evs with
  | nil => intro p h; simp [run_events, h]
  | cons ev rest ih =>
    intro p h
    cases ev with
    | submit task =>
      simp only [run_events]
      obtain ⟨h1, h2, h3⟩ := ih (add_task p task).2 (by rw [add_task_state]; exact h)
      refine ⟨h1, h2, List.IsPrefix.trans ?_ h3⟩
      unfold add_task
      split
      · exact List.prefix_refl _
      · exact List.prefix_append _ _
    | worker =>
      simp only [run_events, step_stopped STOPPED p h]
      exact ih p h

theorem workers_stopped (STOPPED : Int) (p : ThreadPool) (h : p._pool_state = STOPPED)
    (n : Nat) : run_events STOPPED p (List.replicate n .worker) = ([], p) := by
  induction n with
  | zero => simp [run_events]
  | succ n ih => simp only [List.replicate_succ, run_events, step_stopped STOPPED p h]; exact ih

theorem add_task_queue (p : ThreadPool) (task : Task) :
    p._tasks <+: (add_task p task).2._tasks := by
  unfold add_task
  split
  · exact List.prefix_refl _
  · exact List.prefix_append _ _

theorem step_stopped_running (STOPPED : Int) (s : Running)
    (h : s.pool._pool_state = STOPPED) (act : Action) :
    (s.step STOPPED act).pool._pool_state = STOPPED ∧
    s.pool._tasks <+: (s.step STOPPED act).pool._tasks ∧
    (∀ (i : Nat) (task : Task), (s.step STOPPED act).workers[i]? = some (.holding task) →
      s.workers[i]? = some (.holding task)) ∧
    (∀ e ∈ (s.step STOPPED act).ran,
      e ∈ s.ran ∨ ∃ i : Nat, s.workers[i]? = some (.holding e.1)) := by
  cases act with
  | submit task =>
    refine ⟨?_, add_task_queue s.pool task, fun i task hi => hi, fun e he => Or.inl he⟩
    show (add_task s.pool task).2._pool_state = STOPPED
    rw [add_task_state]; exact h
  | pass k =>
    simp only [Running.step]
    split
    · rw [step_stopped STOPPED s.pool h]
      refine ⟨h, List.prefix_refl _, ?_, fun e he => Or.inl he⟩
      intro i task hi
      simp only [List.getElem?_set] at hi
      split at hi
      · split at hi <;> simp at hi
      · exact hi
    · exact ⟨h, List.prefix_refl _, fun i task hi => hi, fun e he => Or.inl he⟩
  | run k =>
    simp only [Running.step]
    split
    · rename_i held hk
      refine ⟨h, List.prefix_refl _, ?_, ?_⟩
      · intro i task hi
        simp only [List.getElem?_set] at hi
        split at hi
        · split at hi <;> simp at hi
        · exact hi
      · intro e he
        simp only [List.mem_append, List.mem_singleton] at he
        rcases he with he | he
        · exact Or.inl he
        · exact Or.inr ⟨k, by rw [he]; exact hk⟩
    · exact ⟨h, List.prefix_refl _, fun i task hi => hi, fun e he => Or.inl he⟩
  | stop =>
    exact ⟨rfl, List.prefix_refl _, fun i task hi => hi, fun e he => Or.inl he⟩

theorem actions_stopped (STOPPED : Int) (acts : List Action) :
    ∀ s : Running, s.pool._pool_state = STOPPED →
      (run_actions STOPPED s acts).pool._pool_state = STOPPED ∧
      s.pool._tasks <+: (run_actions STOPPED s acts).pool._tasks ∧
      (∀ (i : Nat) (task : Task),
        (run_actions STOPPED s acts).workers[i]? = some (.holding task) →
        s.workers[i]? = some (.holding task)) ∧
      (∀ e ∈ (run_actions STOPPED s acts).ran,
        e ∈ s.ran ∨ ∃ i : Nat, s.workers[i]? = some (.holding e.1)) := by
  induction acts with
  | nil =>
    intro s h
    exact ⟨h, List.prefix_refl _, fun i task hi => hi, fun e he => Or.inl he⟩
  | cons act rest ih =>
    intro s h
    obtain ⟨a1, a2, a3, a4⟩ := step_stopped_running STOPPED s h act
    obtain ⟨b1, b2, b3, b4⟩ := ih (s.step STOPPED act) a1
    simp only [run_actions, List.foldl_cons] at b1 b2 b3 b4 ⊢
    refine ⟨b1, List.IsPrefix.trans a2 b2, fun i task hi => a3 i task (b3 i task hi), ?_⟩
    intro e he
    rcases b4 e he with hb | ⟨i, hb⟩
    · exact a4 e hb
    · exact Or.inr ⟨i, a3 i e.1 hb⟩

theorem joined_in_range (p : ThreadPool) (h : p._pool_size ≤ (p._threads.length : Int)) :
    (joined p).all Option.isSome = true := by
  simp only [joined, List.all_eq_true, List.mem_map, List.mem_range]
  rintro x ⟨i, hi, rfl⟩
  have : i < p._threads.length := by omega
  simp [this]

/-- C9, the claim fails: a pool of one worker is started and given a task; the
worker takes the task; `destroy_threadpool` writes `STOPPED`; the worker runs
the task. For no two distinct values of `STARTED` and `STOPPED` was every task
run in another state than `STOPPED`. -/
theorem task_runs_while_stopped :
    ¬ ∃ STARTED STOPPED : Int, STARTED ≠ STOPPED ∧
      ∀ e ∈ (run_actions STOPPED
          { pool := (start_threadpool STARTED create_ok (set_pool_size ThreadPool.new 1)).2
            workers := [.looping]
            ran := [] }
          [.submit ⟨1, 0⟩, .pass 0, .stop, .run 0]).ran, e.2 ≠ STOPPED := by
  rintro ⟨s, t, hne, h⟩
  have hstart : ∃ threads : List Nat,
      (start_threadpool s create_ok (set_pool_size ThreadPool.new 1)).2
        = { set_pool_size ThreadPool.new 1 with _pool_state := s, _threads := threads } := by
    by_cases hs : (-1 : Int) = s
    · subst hs
      exact ⟨[], by simp [start_threadpool, set_pool_size, ThreadPool.new]⟩
    · exact ⟨_, by simp [start_threadpool, set_pool_size, ThreadPool.new, hs]; rfl⟩
  obtain ⟨threads, hp⟩ := hstart
  rw [hp] at h
  have hlog : (run_actions t
      { pool := { set_pool_size ThreadPool.new 1 with _pool_state := s, _threads := threads }
        workers := [.looping]
        ran := [] }
      [.submit ⟨1, 0⟩, .pass 0, .stop, .run 0]).ran = [(⟨1, 0⟩, t)] := by
    simp [run_actions, Running.step, add_task, execute_thread_step, destroy_threadpool,
      set_pool_size, ThreadPool.new, hne]
  rw [hlog] at h
  exact h (⟨1, 0⟩, t) (List.mem_singleton.mpr rfl) rfl

/-- C9, amended. On a pool in state `STOPPED`: `add_task` within the limit
returns `0` and appends the task; a worker pass ends that worker and leaves the
pool as it is, whatever the queue holds, so the worker loop takes nothing and
exits, any number of worker passes leaves the pool unchanged, and in every
sequence of `add_task` calls and worker passes no task is taken from the
queue, which only grows at the tail. In a running program whose pool is
`STOPPED`, whatever the threads do next, no worker comes to hold a task it did
not hold already, and the only tasks run are tasks some worker held already.
`destroy_threadpool` on any pool leaves the queue as it is and the state
`STOPPED`, so that no task of the queue is taken afterwards; and when every
index below the worker count is within the thread vector it returns the queue
size converted to `int`, the queue length itself below `2^31`. -/
theorem stopped_pool (STOPPED : Int) (p : ThreadPool) (hstate : p._pool_state = STOPPED) :
    (∀ task : Task,
      ¬ (p._task_size_limit > 0 ∧ (p._tasks.length : Int) > p._task_size_limit) →
      add_task p task = (0, { p with _tasks := p._tasks ++ [task] }) ∧
      (add_task p task).2._pool_state = STOPPED) ∧
    execute_thread_step STOPPED p = (.exit p.m_exit_cb, p) ∧
    (∀ fuel : Nat, execute_thread STOPPED (fuel + 1) p = ([], .exited, p)) ∧
    (∀ n : Nat, run_events STOPPED p (List.replicate n .worker) = ([], p)) ∧
    (∀ evs : List Event,
      (run_events STOPPED p evs).1 = [] ∧
      (run_events STOPPED p evs).2._pool_state = STOPPED ∧
      p._tasks <+: (run_events STOPPED p evs).2._tasks) ∧
    (∀ (workers : List Worker) (ran : List (Task × Int)) (acts : List Action),
      (run_actions STOPPED ⟨p, workers, ran⟩ acts).pool._pool_state = STOPPED ∧
      p._tasks <+: (run_actions STOPPED ⟨p, workers, ran⟩ acts).pool._tasks ∧
      (∀ (i : Nat) (task : Task),
        (run_actions STOPPED ⟨p, workers, ran⟩ acts).workers[i]? = some (.holding task) →
        workers[i]? = some (.holding task)) ∧
      (∀ e ∈ (run_actions STOPPED ⟨p, workers, ran⟩ acts).ran,
        e ∈ ran ∨ ∃ i : Nat, workers[i]? = some (.holding e.1))) ∧
    (∀ q : ThreadPool,
      (q._pool_size ≤ (q._threads.length : Int) →
        (destroy_threadpool STOPPED q).1 = some (to_int q._tasks.length) ∧
        (q._tasks.length < 2147483648 →
          (destroy_threadpool STOPPED q).1 = some (q._tasks.length : Int))) ∧
      (destroy_threadpool STOPPED q).2._pool_state = STOPPED ∧
      (destroy_threadpool STOPPED q).2._tasks = q._tasks ∧
      ∀ evs : List Event,
        (run_events STOPPED (destroy_threadpool STOPPED q).2 evs).1 = [] ∧
        q._tasks <+: (run_events STOPPED (destroy_threadpool STOPPED q).2 evs).2._tasks) := by
  refine ⟨?_, step_stopped STOPPED p hstate, ?_, workers_stopped STOPPED p hstate,
    fun evs => events_stopped STOPPED evs p hstate,
    fun workers ran acts => actions_stopped STOPPED acts ⟨p, workers, ran⟩ hstate, ?_⟩
  · intro task hc
    have hc2 : ¬ (p._task_size_limit > 0 ∧ to_int p._tasks.length > p._task_size_limit) := by
      intro h2
      have := to_int_le p._tasks.length
      exact hc ⟨h2.1, by omega⟩
    refine ⟨add_task_accept p task hc2, ?_⟩
    rw [add_task_state]; exact hstate
  · intro fuel
    simp only [execute_thread, step_stopped STOPPED p hstate]
  · intro q
    refine ⟨?_, rfl, rfl, ?_⟩
    · intro hq
      have hret : (destroy_threadpool STOPPED q).1 = some (to_int q._tasks.length) := by
        simp only [destroy_threadpool, joined_in_range q hq, if_true]
      refine ⟨hret, ?_⟩
      intro hlen
      rw [hret, to_int_small _ hlen]
    · intro evs
      obtain ⟨h1, _, h3⟩ := events_stopped STOPPED evs (destroy_threadpool STOPPED q).2 rfl
      exact ⟨h1, h3⟩

/-- C9, amended, at `STOPPED = 1`: a pool of two workers, started, given two
tasks and destroyed before any worker pass. -/
theorem stopped_pool_witness :
    (destroy_threadpool 1
      (add_tasks (start_threadpool 0 create_ok (set_pool_size ThreadPool.new 2)).2
        [⟨1, 0⟩, ⟨2, 0⟩]).2).2._pool_state = 1 ∧
    (destroy_threadpool 1
      (add_tasks (start_threadpool 0 create_ok (set_pool_size ThreadPool.new 2)).2
        [⟨1, 0⟩, ⟨2, 0⟩]).2).1 = some 2 ∧
    execute_thread 1 3
      (destroy_threadpool 1
        (add_tasks (start_threadpool 0 create_ok (set_pool_size ThreadPool.new 2)).2
          [⟨1, 0⟩, ⟨2, 0⟩]).2).2
      = ([], .exited,
          (destroy_threadpool 1
            (add_tasks (start_threadpool 0 create_ok (set_pool_size ThreadPool.new 2)).2
              [⟨1, 0⟩, ⟨2, 0⟩]).2).2) :=
  ⟨by decide, by decide,
   (stopped_pool 1
      (destroy_threadpool 1
        (add_tasks (start_threadpool 0 create_ok (set_pool_size ThreadPool.new 2)).2
          [⟨1, 0⟩, ⟨2, 0⟩]).2).2 (by decide)).2.2.1 2⟩

/-! Section: start_threadpool. -/

theorem start_loop_ok (create : Nat → Int × Nat) (n : Nat) :
    ∀ (i : Nat) (threads : List Nat), (∀ j, i ≤ j → j < i + n → (create j).1 = 0) →
      start_loop create i n threads
        = (0, threads ++ (List.range' i n).map (fun j => (create j).2)) := by
  induction n with
  | zero => intro i threads _; simp [start_loop]
  | succ n ih =>
    intro i threads h
    have h0 : (create i).1 = 0 := h i le_rfl (by omega)
    simp only [start_loop, h0, ne_eq, not_true_eq_false, if_false]
    rw [ih (i + 1) _ (fun j h1 h2 => h j (by omega) (by omega))]
    simp [List.range'_succ]

theorem start_again (STARTED : Int) (create : Nat → Int × Nat) (p : ThreadPool)
    (hsize : p._pool_size ≠ 0) (hstate : p._pool_state = STARTED) :
    start_threadpool STARTED create p = (0, p) := by
  simp [start_threadpool, hsize, hstate]

/-- C6. A pool never started, with no thread recorded and worker count
`n > 0`, all thread creations succeeding: the first `start_threadpool` returns
`0`, sets the state to `STARTED`, records exactly the `n` threads created, in
creation order, and changes nothing else; a `start_threadpool` right after it
returns `0` and leaves the whole pool (state, threads, queue) as it is,
whatever `pthread_create` would have given. -/
theorem start_twice (STARTED : Int) (hcode : STARTED ≠ -1) (create : Nat → Int × Nat)
    (p : ThreadPool) (n : Int) (hn : 0 < n) (hsize : p._pool_size = n)
    (hstate : p._pool_state = -1) (hthreads : p._threads = [])
    (hcreate : ∀ i : Nat, i < n.toNat → (create i).1 = 0) :
    (start_threadpool STARTED create p).1 = 0 ∧
    (start_threadpool STARTED create p).2
      = { p with _pool_state := STARTED,
                 _threads := (List.range n.toNat).map (fun i => (create i).2) } ∧
    ((start_threadpool STARTED create p).2._threads.length : Int) = n ∧
    (∀ create2 : Nat → Int × Nat,
      start_threadpool STARTED create2 (start_threadpool STARTED create p).2
        = (0, (start_threadpool STARTED create p).2)) := by
  have hne : p._pool_size ≠ 0 := by omega
  have hst : p._pool_state ≠ STARTED := by rw [hstate]; exact fun h => hcode h.symm
  have hloop := start_loop_ok create n.toNat 0 p._threads
    (fun j _ h2 => hcreate j (by omega))
  have hfirst : start_threadpool STARTED create p
      = (0, { p with _pool_state := STARTED,
                     _threads := (List.range n.toNat).map (fun i => (create i).2) }) := by
    unfold start_threadpool
    rw [if_neg hne, if_neg hst]
    rw [hthreads] at hloop
    simp only [hsize, hloop, hthreads, List.range_eq_range', List.nil_append]
  refine ⟨by rw [hfirst], by rw [hfirst], ?_, ?_⟩
  · rw [hfirst]; simp; omega
  · intro create2
    rw [hfirst]
    exact start_again STARTED create2 _ hne rfl

/-- C6 at `STARTED = 0`: a fresh pool with worker count `3`. -/
theorem start_twice_witness :
    (start_threadpool 0 create_ok (set_pool_size ThreadPool.new 3)).1 = 0 ∧
    (start_threadpool 0 create_ok (set_pool_size ThreadPool.new 3)).2
      = { set_pool_size ThreadPool.new 3 with
            _pool_state := 0,
            _threads := (List.range (3 : Int).toNat).map (fun i => (create_ok i).2) } ∧
    ((start_threadpool 0 create_ok (set_pool_size ThreadPool.new 3)).2._threads.length : Int)
      = 3 ∧
    (∀ create2 : Nat → Int × Nat,
      start_threadpool 0 create2 (start_threadpool 0 create_ok (set_pool_size ThreadPool.new 3)).2
        = (0, (start_threadpool 0 create_ok (set_pool_size ThreadPool.new 3)).2)) :=
  start_twice 0 (by decide) create_ok (set_pool_size ThreadPool.new 3) 3 (by decide) rfl rfl rfl
    (fun _ _ => rfl)

/-- C5, the claim fails: with worker count `-1` on a fresh pool
`start_threadpool` does not return `-1`, whatever the value of `STARTED`. -/
theorem start_negative_size :
    ¬ ∃ STARTED : Int,
      (start_threadpool STARTED create_ok (set_pool_size ThreadPool.new (-1))).1 = -1 := by
  rintro ⟨s, h⟩
  by_cases hs : (-1 : Int) = s
  · subst hs
    simp [start_threadpool, set_pool_size, ThreadPool.new] at h
  · simp [start_threadpool, set_pool_size, ThreadPool.new, hs, start_loop] at h

/-- C5, amended. For every worker count `≤ 0`, `start_threadpool` records no
thread; for worker count `0` it returns `-1` and leaves the whole pool, the
state included, as it is. -/
theorem start_not_positive (STARTED : Int) (create : Nat → Int × Nat) (p : ThreadPool)
    (hsize : p._pool_size ≤ 0) :
    (start_threadpool STARTED create p).2._threads = p._threads ∧
    (p._pool_size = 0 → start_threadpool STARTED create p = (-1, p)) := by
  have hz : p._pool_size.toNat = 0 := by omega
  constructor
  · unfold start_threadpool
    split
    · rfl
    · split
      · rfl
      · simp [hz, start_loop]
  · intro h0
    simp [start_threadpool, h0]

/-- C5, amended, at `STARTED = 0` on a fresh pool whose worker count was never
set. -/
theorem start_not_positive_witness :
    ThreadPool.new._pool_size ≤ 0 ∧
    (start_threadpool 0 create_ok ThreadPool.new).2._threads = [] ∧
    start_threadpool 0 create_ok ThreadPool.new = (-1, ThreadPool.new) :=
  ⟨by decide, (start_not_positive 0 create_ok ThreadPool.new (by decide)).1,
    (start_not_positive 0 create_ok ThreadPool.new (by decide)).2 rfl⟩

/-! Section: destroy_threadpool. -/

/-- C7. On a pool never started, with worker count `2`, `destroy_threadpool`
sets the state to `STOPPED` and joins `_threads[0]` and `_threads[1]` of an
empty vector; on the pool so stopped a second `destroy_threadpool` joins the
same two again. When `STARTED` is not `-1`, the destructor, which looks at the
state first, leaves the never started pool as it is, and a pool of two workers
that was started and destroyed has both its threads joined again by a second
`destroy_threadpool`. On the never started pool the reads of `_threads` are
out of range, and the call has no return value. -/
theorem destroy_never_started (STARTED STOPPED : Int) :
    (set_pool_size ThreadPool.new 2)._pool_state = -1 ∧
    (destroy_threadpool STOPPED (set_pool_size ThreadPool.new 2)).2._pool_state = STOPPED ∧
    joined (set_pool_size ThreadPool.new 2) = [none, none] ∧
    joined (destroy_threadpool STOPPED (set_pool_size ThreadPool.new 2)).2 = [none, none] ∧
    (STARTED ≠ -1 →
      ThreadPool.destructor STARTED STOPPED (set_pool_size ThreadPool.new 2)
        = set_pool_size ThreadPool.new 2 ∧
      joined (destroy_threadpool STOPPED
          (start_threadpool STARTED create_ok (set_pool_size ThreadPool.new 2)).2).2
        = [some 100, some 101]) ∧
    (destroy_threadpool STOPPED (set_pool_size ThreadPool.new 2)).1 = none := by
  refine ⟨rfl, rfl, by decide, rfl, ?_, rfl⟩
  intro h
  have hne : ¬ (-1 : Int) = STARTED := fun e => h e.symm
  constructor
  · simp [ThreadPool.destructor, set_pool_size, ThreadPool.new, hne]
  · simp [joined, destroy_threadpool, start_threadpool, set_pool_size, ThreadPool.new, hne,
      start_loop, create_ok, List.range_succ]

/-! Section: The setters. -/

/-- C8, the claim fails: on a pool with worker count `1` that has been
started, `set_pool_size 5` does not leave the worker count at `1`, whatever
the value of `STARTED`. -/
theorem set_after_start :
    ¬ ∃ STARTED : Int,
      (set_pool_size (start_threadpool STARTED create_ok (set_pool_size ThreadPool.new 1)).2
        5)._pool_size = 1 := by
  rintro ⟨s, h⟩
  simp [set_pool_size] at h

/-- C8, amended. In every lifecycle state each of the four setters returns
nothing, stores its argument in its own field and leaves every other field of
the pool as it is. -/
theorem setters_any_state (p : ThreadPool) (f : Option Nat) (n : Int) :
    set_pool_size p n = { p with _pool_size := n } ∧
    set_task_size_limit p n = { p with _task_size_limit := n } ∧
    set_thread_start_cb p f = { p with m_scb := f } ∧
    set_thread_exit_cb p f = { p with m_exit_cb := f } ∧
    (set_pool_size p n)._pool_size = n ∧
    (set_task_size_limit p n)._task_size_limit = n ∧
    (set_thread_start_cb p f).m_scb = f ∧
    (set_thread_exit_cb p f).m_exit_cb = f ∧
    (set_pool_size p n)._pool_state = p._pool_state ∧
    (set_task_size_limit p n)._pool_state = p._pool_state ∧
    (set_thread_start_cb p f)._pool_state = p._pool_state ∧
    (set_thread_exit_cb p f)._pool_state = p._pool_state :=
  ⟨rfl, rfl, rfl, rfl, rfl, rfl, rfl, rfl, rfl, rfl, rfl, rfl⟩

/-! Section: The lifecycle state. -/

theorem op_state (STARTED STOPPED : Int) (p : ThreadPool) (op : Op) :
    (op.apply STARTED STOPPED p)._pool_state = p._pool_state ∨
    (op.is_start = true ∧ (op.apply STARTED STOPPED p)._pool_state = STARTED) ∨
    (op.apply STARTED STOPPED p)._pool_state = STOPPED := by
  cases op with
  | set_thread_start_cb f => exact Or.inl rfl
  | set_thread_exit_cb f => exact Or.inl rfl
  | set_task_size_limit size => exact Or.inl rfl
  | set_pool_size pool_size => exact Or.inl rfl
  | start create =>
    simp only [Op.apply, start, start_threadpool, Op.is_start, true_and]
    split
    · exact Or.inl rfl
    · split
      · exact Or.inl rfl
      · exact Or.inr (Or.inl rfl)
  | start_threadpool create =>
    simp only [Op.apply, start_threadpool, Op.is_start, true_and]
    split
    · exact Or.inl rfl
    · split
      · exact Or.inl rfl
      · exact Or.inr (Or.inl rfl)
  | add_task task => exact Or.inl (add_task_state p task)
  | destroy_threadpool => exact Or.inr (Or.inr rfl)

theorem run_ops_states (STARTED STOPPED : Int) (ops : List Op) :
    ∀ p : ThreadPool,
      (p._pool_state = -1 ∨ p._pool_state = STARTED ∨ p._pool_state = STOPPED) →
      ((run_ops STARTED STOPPED p ops)._pool_state = -1 ∨
        (run_ops STARTED STOPPED p ops)._pool_state = STARTED ∨
        (run_ops STARTED STOPPED p ops)._pool_state = STOPPED) := by
  induction ops with
  | nil => intro p h; exact h
  | cons op rest ih =>
    intro p h
    simp only [run_ops, List.foldl_cons]
    apply ih
    rcases op_state STARTED STOPPED p op with h1 | ⟨_, h1⟩ | h1
    · rw [h1]; exact h
    · exact Or.inr (Or.inl h1)
    · exact Or.inr (Or.inr h1)

theorem run_ops_left (STARTED STOPPED : Int) (hs : STARTED ≠ -1) (ht : STOPPED ≠ -1)
    (ops : List Op) :
    ∀ p : ThreadPool, p._pool_state ≠ -1 →
      (run_ops STARTED STOPPED p ops)._pool_state ≠ -1 := by
  induction ops with
  | nil => intro p h; exact h
  | cons op rest ih =>
    intro p h
    simp only [run_ops, List.foldl_cons]
    apply ih
    rcases op_state STARTED STOPPED p op with h1 | ⟨_, h1⟩ | h1
    · rw [h1]; exact h
    · rw [h1]; exact hs
    · rw [h1]; exact ht

theorem run_ops_append (STARTED STOPPED : Int) (p : ThreadPool) (ops more : List Op) :
    run_ops STARTED STOPPED p (ops ++ more)
      = run_ops STARTED STOPPED (run_ops STARTED STOPPED p ops) more := by
  simp [run_ops, List.foldl_append]

theorem rank_le_two (STARTED STOPPED state : Int) : rank STARTED STOPPED state ≤ 2 := by
  unfold rank; split
  · exact le_rfl
  · split <;> omega

/-- C4, the claim fails: worker count `1`, `start_threadpool`,
`destroy_threadpool`, `start_threadpool` again: for no two distinct values of
`STARTED` and `STOPPED` is the pool still `STOPPED` after the last call. -/
theorem restart_after_stop :
    ¬ ∃ STARTED STOPPED : Int, STARTED ≠ STOPPED ∧
      (run_ops STARTED STOPPED ThreadPool.new
        [.set_pool_size 1, .start_threadpool create_ok, .destroy_threadpool,
          .start_threadpool create_ok])._pool_state = STOPPED := by
  rintro ⟨s, t, hne, h⟩
  have hts : ¬ t = s := fun e => hne e.symm
  simp [run_ops, Op.apply, set_pool_size, start_threadpool, destroy_threadpool,
    ThreadPool.new, hts] at h
  split at h <;> simp_all [start_loop]

/-- C4, amended. `STARTED` and `STOPPED` being other values than `-1`: after
every sequence of public calls on a fresh pool the state is `-1`
(`NOT_STARTED`), `STARTED` or `STOPPED`; every further call leaves the state
where it is or moves it forward in the order `NOT_STARTED`, `STARTED`,
`STOPPED`, unless it is a start call on a `STOPPED` pool, which sets the state
back to `STARTED`; and a state that has left `NOT_STARTED` never returns to
it. -/
theorem lifecycle_moves (STARTED STOPPED : Int)
    (hs : STARTED ≠ -1) (ht : STOPPED ≠ -1) (ops : List Op) (op : Op) (more : List Op) :
    ((run_ops STARTED STOPPED ThreadPool.new ops)._pool_state = -1 ∨
      (run_ops STARTED STOPPED ThreadPool.new ops)._pool_state = STARTED ∨
      (run_ops STARTED STOPPED ThreadPool.new ops)._pool_state = STOPPED) ∧
    (rank STARTED STOPPED (run_ops STARTED STOPPED ThreadPool.new ops)._pool_state
        ≤ rank STARTED STOPPED
            (op.apply STARTED STOPPED (run_ops STARTED STOPPED ThreadPool.new ops))._pool_state ∨
      (op.is_start = true ∧
        (run_ops STARTED STOPPED ThreadPool.new ops)._pool_state = STOPPED ∧
        (op.apply STARTED STOPPED (run_ops STARTED STOPPED ThreadPool.new ops))._pool_state
          = STARTED)) ∧
    ((run_ops STARTED STOPPED ThreadPool.new ops)._pool_state ≠ -1 →
      (run_ops STARTED STOPPED ThreadPool.new (ops ++ more))._pool_state ≠ -1) := by
  have hinv := run_ops_states STARTED STOPPED ops ThreadPool.new (Or.inl rfl)
  refine ⟨hinv, ?_, ?_⟩
  · rcases op_state STARTED STOPPED (run_ops STARTED STOPPED ThreadPool.new ops) op
      with h1 | ⟨hstart, h1⟩ | h1
    · left; rw [h1]
    · rcases hinv with h0 | h0 | h0
      · left; rw [h0, h1]
        simp [rank, hs, ht, Ne.symm hs, Ne.symm ht]
      · left; rw [h0, h1]
      · right; exact ⟨hstart, h0, h1⟩
    · left; rw [h1]
      have : rank STARTED STOPPED STOPPED = 2 := by simp [rank]
      rw [this]; exact rank_le_two _ _ _
  · intro h
    rw [run_ops_append]
    exact run_ops_left STARTED STOPPED hs ht more _ h

/-- C4, amended, at `STARTED = 0`, `STOPPED = 1`: a pool of two workers is
started, then destroyed, then given a task. -/
theorem lifecycle_moves_witness :
    ((run_ops 0 1 ThreadPool.new [.set_pool_size 2, .start_threadpool create_ok])._pool_state
        = -1 ∨
      (run_ops 0 1 ThreadPool.new [.set_pool_size 2, .start_threadpool create_ok])._pool_state
        = 0 ∨
      (run_ops 0 1 ThreadPool.new [.set_pool_size 2, .start_threadpool create_ok])._pool_state
        = 1) ∧
    (rank 0 1 (run_ops 0 1 ThreadPool.new
          [.set_pool_size 2, .start_threadpool create_ok])._pool_state
        ≤ rank 0 1
            (Op.destroy_threadpool.apply 0 1 (run_ops 0 1 ThreadPool.new
              [.set_pool_size 2, .start_threadpool create_ok]))._pool_state ∨
      (Op.destroy_threadpool.is_start = true ∧
        (run_ops 0 1 ThreadPool.new
          [.set_pool_size 2, .start_threadpool create_ok])._pool_state = 1 ∧
        (Op.destroy_threadpool.apply 0 1 (run_ops 0 1 ThreadPool.new
          [.set_pool_size 2, .start_threadpool create_ok]))._pool_state = 0)) ∧
    ((run_ops 0 1 ThreadPool.new [.set_pool_size 2, .start_threadpool create_ok])._pool_state
        ≠ -1 →
      (run_ops 0 1 ThreadPool.new
        ([.set_pool_size 2, .start_threadpool create_ok] ++
          [.destroy_threadpool, .add_task ⟨1, 0⟩]))._pool_state ≠ -1) :=
  lifecycle_moves 0 1 (by decide) (by decide)
    [.set_pool_size 2, .start_threadpool create_ok] .destroy_threadpool
    [.destroy_threadpool, .add_task ⟨1, 0⟩]

end Ehttp
